import Mathlib

set_option maxRecDepth 40000

/-
Shallow embedding of src/redhat.py: a FastAPI router answering questions over
a PDF corpus with retrieval-augmented generation.

Modelling conventions:
- the filesystem is an association list from path strings to file contents,
  with a write shadowing earlier entries;
- pickle files hold a list of serialized objects, one per pickle.dump call,
  read back in order by pickle.load;
- the external collaborators whose exact behaviour the module does not control
  (the HuggingFace bge-m3 embedding model, the unstructured document loader,
  uuid generation for docstore ids, and the byte-store key encoder) are
  abstract functions collected in a `World` parameter;
- fallible operations return Option or Except instead of raising;
- machine integers do not occur (chunk sizes and lengths are small Nats);
  embedding vectors are modelled as lists of integers, which is enough for the
  claims, none of which depends on floating-point values.
-/

/-- A langchain Document: a chunk's text plus its source-file provenance. -/
structure Document where
  page_content : String
  source : String
deriving DecidableEq

/-- The raw faiss index written by faiss.write_index: the stored vectors, the
position in the list being the internal integer id (IndexFlatL2 built by
FAISS.from_documents). -/
structure FaissIndex where
  vectors : List (List Int)
deriving DecidableEq

/-- The langchain InMemoryDocstore: a dict from docstore id to Document. -/
structure InMemoryDocstore where
  dict : List (String × Document)
deriving DecidableEq

/-- langchain.storage.LocalFileStore: a byte store rooted at a directory. -/
structure LocalFileStore where
  root : String
deriving DecidableEq

/-- CacheBackedEmbeddings.from_bytes_store(embeddings, store): the underlying
embedding model together with the byte store caching document embeddings.
Query embeddings are not cached (the default, no query_embedding_cache). -/
structure CachedEmbeddings where
  underlying : String → List Int
  store : LocalFileStore

/-- CacheBackedEmbeddings.embed_query delegates to the underlying model
without touching the byte store (default configuration). -/
def CachedEmbeddings.embed_query (c : CachedEmbeddings) : String → List Int :=
  c.underlying

/-- CacheBackedEmbeddings.from_bytes_store constructor. -/
def CacheBackedEmbeddings.from_bytes_store (f : String → List Int)
    (s : LocalFileStore) : CachedEmbeddings :=
  ⟨f, s⟩

/-- The embedding_function field of a langchain FAISS vectorstore: either an
Embeddings object (as set by FAISS.from_documents) or a bare callable (as set
by load_faiss_index, which passes embeddings.embed_query). -/
inductive EmbFn where
  | provider (e : CachedEmbeddings)
  | fn (f : String → List Int)

/-- Calling the embedding_function on a query text. -/
def EmbFn.call : EmbFn → String → List Int
  | .provider e => e.embed_query
  | .fn f => f

/-- The langchain FAISS vectorstore: raw index, docstore, id mapping and the
live embedding function. -/
structure FAISS where
  index : FaissIndex
  docstore : InMemoryDocstore
  index_to_docstore_id : List (Nat × String)
  embedding_function : EmbFn

/-- The FAISS.embeddings property: returns the Embeddings object when the
embedding_function is one, and None when it is a bare callable. -/
def FAISS.embeddings (vs : FAISS) : Option CachedEmbeddings :=
  match vs.embedding_function with
  | .provider e => some e
  | .fn _ => none

/-- One object written by a single pickle.dump call into index.pkl. -/
inductive PickleObj where
  | idMap (m : List (Nat × String))
  | docstoreObj (d : InMemoryDocstore)
  | embObj (e : Option CachedEmbeddings)

/-- Contents of one file on disk. -/
inductive FileData where
  | faissData (idx : FaissIndex)
  | pklData (objs : List PickleObj)
  | vecData (v : List Int)

/-- The filesystem: an association list from paths to contents; a write
prepends and shadows older entries. -/
abbrev FS := List (String × FileData)

/-- Writing a file (open(..., "wb") / faiss.write_index). -/
def fsWrite (p : String) (d : FileData) (fs : FS) : FS :=
  (p, d) :: fs

/-- Reading a file, none when the path does not exist. -/
def fsRead (p : String) : FS → Option FileData
  | [] => none
  | (q, d) :: rest => if q = p then some d else fsRead p rest

/-- os.path.exists. -/
def fsExists (p : String) (fs : FS) : Bool :=
  (fsRead p fs).isSome

/-- Kernel-reducible substitute for String.startsWith (used instead of the
core function, whose loop does not reduce definitionally). -/
def strStartsWith (s pre : String) : Bool :=
  pre.data.isPrefixOf s.data

/-- Kernel-reducible substitute for String.endsWith. -/
def strEndsWith (s post : String) : Bool :=
  post.data.reverse.isPrefixOf s.data.reverse

/-- os.path.join for the two-component joins used in this module: an absolute
second component replaces the first, an empty or slash-terminated directory is
concatenated directly, otherwise a slash is inserted. -/
def os_path_join (dir name : String) : String :=
  if strStartsWith name "/" then name
  else if dir = "" then name
  else if strEndsWith dir "/" then dir ++ name
  else dir ++ "/" ++ name

/-- Splitting a character list at each non-overlapping occurrence of sep,
scanning left to right; fuel bounds the recursion and is always supplied as
the text length, which suffices because each step consumes at least one
character when sep is nonempty. -/
def splitBySepFuel (sep : List Char) : Nat → List Char → List Char → List (List Char)
  | 0, acc, text => [acc.reverse ++ text]
  | n + 1, acc, text =>
    match text with
    | [] => [acc.reverse]
    | c :: cs =>
      if sep.isPrefixOf (c :: cs) then
        acc.reverse :: splitBySepFuel sep n [] (List.drop sep.length (c :: cs))
      else
        splitBySepFuel sep n (c :: acc) cs

/-- re.split on a re.escape'd (hence literal) separator, without the capture
group: the list of pieces between occurrences of sep. -/
def splitBySep (sep text : List Char) : List (List Char) :=
  splitBySepFuel sep text.length [] text

/-- os.path.basename for POSIX paths: the part after the last slash. -/
def basename (p : String) : String :=
  String.mk ((splitBySep ['/'] p.data).reverse.headD [])

/-- save_faiss_index (src/redhat.py lines 34-39): writes the raw index to
index.faiss, then pickles the id mapping, the docstore and the
vectorstore.embeddings property, in that order, into index.pkl. -/
def save_faiss_index (vectorstore : FAISS) (dir_path : String) (fs : FS) : FS :=
  fsWrite (os_path_join dir_path "index.pkl")
    (.pklData [.idMap vectorstore.index_to_docstore_id,
               .docstoreObj vectorstore.docstore,
               .embObj vectorstore.embeddings])
    (fsWrite (os_path_join dir_path "index.faiss") (.faissData vectorstore.index) fs)

/-- load_faiss_index (src/redhat.py lines 41-53): reads the raw index from
index.faiss, unpickles the first two objects of index.pkl (id mapping and
docstore; any further pickled object is left unread), and builds a FAISS
vectorstore whose embedding_function is embeddings.embed_query, the provider
re-supplied at load time.  none models the exceptions raised on a missing
file or an unexpected unpickled shape. -/
def load_faiss_index (dir_path : String) (embeddings : CachedEmbeddings)
    (fs : FS) : Option FAISS :=
  match fsRead (os_path_join dir_path "index.faiss") fs with
  | some (.faissData idx) =>
    match fsRead (os_path_join dir_path "index.pkl") fs with
    | some (.pklData (.idMap m :: .docstoreObj d :: _)) =>
      some ⟨idx, d, m, .fn embeddings.embed_query⟩
    | _ => none
  | _ => none

/-- Squared L2 distance used by the IndexFlatL2 faiss index. -/
def sqDist (v w : List Int) : Int :=
  ((v.zip w).map (fun p => (p.1 - p.2) * (p.1 - p.2))).sum

/-- Insertion into a list of (id, distance) pairs sorted by distance;
a strict comparison keeps earlier ids first among equal distances. -/
def insertScored (p : Nat × Int) : List (Nat × Int) → List (Nat × Int)
  | [] => [p]
  | q :: qs => if p.2 < q.2 then p :: q :: qs else q :: insertScored p qs

/-- faiss IndexFlatL2.search: the ids of the k stored vectors closest to the
query vector, in increasing distance, ties broken by smaller id. -/
def FaissIndex.search (idx : FaissIndex) (qv : List Int) (k : Nat) : List Nat :=
  let scored := idx.vectors.enum.map (fun p => (p.1, sqDist qv p.2))
  ((scored.foldl (fun acc p => insertScored p acc) []).take k).map Prod.fst

/-- Lookup in the index_to_docstore_id dict; none models the KeyError. -/
def lookupId (m : List (Nat × String)) (i : Nat) : Option String :=
  (m.find? (fun p => p.1 == i)).map Prod.snd

/-- InMemoryDocstore.search; none models the missing-document error value. -/
def InMemoryDocstore.search (ds : InMemoryDocstore) (id : String) : Option Document :=
  (ds.dict.find? (fun p => p.1 == id)).map Prod.snd

/-- FAISS.similarity_search: embed the query with the live embedding function,
search the raw index, and resolve each returned id through the id mapping and
the docstore; none models the ValueError raised when a resolution fails. -/
def FAISS.similarity_search (vs : FAISS) (query : String) (k : Nat) :
    Option (List Document) :=
  let qv := vs.embedding_function.call query
  let ids := vs.index.search qv k
  ids.mapM (fun i => (lookupId vs.index_to_docstore_id i).bind vs.docstore.search)

/-- The retriever returned by vectorstore.as_retriever(). -/
structure VectorStoreRetriever where
  vectorstore : FAISS

/-- FAISS.as_retriever with default search type and arguments. -/
def FAISS.as_retriever (vs : FAISS) : VectorStoreRetriever :=
  ⟨vs⟩

/-- retriever.invoke: similarity search with the default k of 4. -/
def VectorStoreRetriever.invoke (r : VectorStoreRetriever) (query : String) :
    Option (List Document) :=
  r.vectorstore.similarity_search query 4

/-- Python str.strip's whitespace test restricted to the ASCII whitespace
characters. -/
def pySpace (c : Char) : Bool :=
  c == ' ' || c == '\t' || c == '\n' || c == '\x0d' || c == '\x0b' || c == '\x0c'

/-- Python str.strip(): drop whitespace from both ends. -/
def pyStrip (l : List Char) : List Char :=
  ((l.dropWhile pySpace).reverse.dropWhile pySpace).reverse

/-- Total length of a list of pieces. -/
def sumLens (l : List (List Char)) : Nat :=
  (l.map List.length).sum

/-- TextSplitter._join_docs with the empty separator used when separators are
kept in the splits: join, strip, and drop the chunk when it strips to empty. -/
def joinClean (docs : List (List Char)) : Option (List Char) :=
  let text := pyStrip docs.flatten
  if text.isEmpty then none else some text

/-- The inner while loop of TextSplitter._merge_splits: pop leading pieces of
the running window until the kept total is at most the chunk overlap and the
next piece fits in the chunk size (separator length 0 throughout, as the
separators are kept inside the splits). -/
def popLoop (csz co lenD : Nat) : List (List Char) → Nat → List (List Char) × Nat
  | [], total => ([], total)
  | c :: cur, total =>
    if total > co ∨ (total + lenD > csz ∧ total > 0) then
      popLoop csz co lenD cur (total - c.length)
    else (c :: cur, total)

/-- The main loop of TextSplitter._merge_splits over the splits, carrying the
current window and its total length; when the next piece would overflow the
chunk size, the window is emitted as a chunk and trimmed by popLoop. -/
def mergeLoop (csz co : Nat) :
    List (List Char) → List (List Char) → Nat → List (List Char) → List (List Char)
  | [], current, _, docs => docs ++ (joinClean current).toList
  | d :: rest, current, total, docs =>
    if total + d.length > csz then
      let docs2 := if current.isEmpty then docs else docs ++ (joinClean current).toList
      let pr := if current.isEmpty then (current, total) else popLoop csz co d.length current total
      mergeLoop csz co rest (pr.1 ++ [d]) (pr.2 + d.length) docs2
    else
      mergeLoop csz co rest (current ++ [d]) (total + d.length) docs

/-- TextSplitter._merge_splits with empty separator. -/
def mergeSplits (csz co : Nat) (splits : List (List Char)) : List (List Char) :=
  mergeLoop csz co splits [] 0 []

/-- re.search of a re.escape'd (hence literal) separator: substring test. -/
def containsSub (sep : List Char) : List Char → Bool
  | [] => sep.isEmpty
  | c :: cs => sep.isPrefixOf (c :: cs) || containsSub sep cs

/-- The separator-selection loop at the top of
RecursiveCharacterTextSplitter._split_text: the first separator that is empty
or occurs in the text is chosen together with the remaining separators; when
none is, the last separator is chosen with no remaining ones. -/
def chooseSep : List (List Char) → List Char → List Char × List (List Char)
  | [], _ => ([], [])
  | s :: rest, text =>
    if s.isEmpty then ([], [])
    else if containsSub s text then (s, rest)
    else
      match rest with
      | [] => (s, [])
      | _ :: _ => chooseSep rest text

/-- _split_text_with_regex on a re.escape'd separator with keep_separator
True: the separator is re-attached to the start of the following piece, empty
pieces are dropped; the empty separator splits into single characters. -/
def splitKeepSep (sep text : List Char) : List (List Char) :=
  if sep.isEmpty then
    (text.map (fun c => [c])).filter (fun s => !s.isEmpty)
  else
    match splitBySep sep text with
    | [] => []
    | p :: ps => (p :: ps.map (fun q => sep ++ q)).filter (fun s => !s.isEmpty)

/-- The loop over splits in RecursiveCharacterTextSplitter._split_text: pieces
shorter than the chunk size are buffered and merged; a piece at least as long
flushes the buffer and is recursively split when separators remain, or is
emitted whole when none do.  The recursive call is abstracted as recur. -/
def processSplits (recur : List Char → List (List Char)) (csz co : Nat)
    (newSeps : List (List Char)) :
    List (List Char) → List (List Char) → List (List Char) → List (List Char)
  | [], good, final => final ++ (if good.isEmpty then [] else mergeSplits csz co good)
  | s :: rest, good, final =>
    if s.length < csz then
      processSplits recur csz co newSeps rest (good ++ [s]) final
    else
      let final2 := final ++ (if good.isEmpty then [] else mergeSplits csz co good)
      let extra := if newSeps.isEmpty then [s] else recur s
      processSplits recur csz co newSeps rest [] (final2 ++ extra)

/-- RecursiveCharacterTextSplitter._split_text; the fuel is the length of the
separator list, which is enough because each recursive call drops at least
one separator. -/
def splitTextGo (csz co : Nat) : Nat → List (List Char) → List Char → List (List Char)
  | 0, _, text => [text]
  | n + 1, seps, text =>
    let sc := chooseSep seps text
    processSplits (splitTextGo csz co n sc.2) csz co sc.2 (splitKeepSep sc.1 text) [] []

/-- The separators configured in src/redhat.py lines 72-77.  Since
is_separator_regex is left at its default False, each entry is a literal
string; in particular the third entry is the eight-character literal
"(?<=\. )", not a sentence-boundary regex. -/
def redhatSeparators : List (List Char) :=
  ["\n\n".data, "\n".data, "(?<=\\. )".data, " ".data, "".data]

/-- The configuration record of the text_splitter built in src/redhat.py
lines 72-77 (is_separator_regex and keep_separator at their library
defaults). -/
structure SplitterConfig where
  chunk_size : Nat
  chunk_overlap : Nat
  separators : List (List Char)
  is_separator_regex : Bool
  keep_separator : Bool

/-- The RecursiveCharacterTextSplitter instance of src/redhat.py. -/
def redhat_text_splitter : SplitterConfig :=
  { chunk_size := 500
    chunk_overlap := 50
    separators := redhatSeparators
    is_separator_regex := false
    keep_separator := true }

/-- text_splitter.split_text with the configuration of src/redhat.py. -/
def split_text (text : List Char) : List (List Char) :=
  splitTextGo redhat_text_splitter.chunk_size redhat_text_splitter.chunk_overlap
    redhatSeparators.length redhatSeparators text

/-- The external collaborators of embed_file, abstracted: the text extracted
from a file by UnstructuredFileLoader, the bge-m3 embedding model, uuid
generation for docstore ids, and the content-derived byte-store key
encoder. -/
structure World where
  docText : String → String
  hfEmbed : String → List Int
  uuid : Nat → String
  hashKey : String → String

/-- Observable side effects of embed_file, recorded in execution order. -/
inductive Event where
  | loadDocs (path : String)
  | splitDocs
  | mkByteStore (root : String)
  | byteStoreWrite (path : String)
  | readIndexFile (dir : String)
  | writeIndexFiles (dir : String)
deriving DecidableEq

/-- Document ingestion events: loading the source document or re-chunking. -/
def isIngestEvent : Event → Bool
  | .loadDocs _ => true
  | .splitDocs => true
  | _ => false

/-- Does a trace contain a document-ingestion event. -/
def hasIngestEvent (evs : List Event) : Bool :=
  evs.any isIngestEvent

/-- The model path of the HuggingFaceEmbeddings constructed in embed_file. -/
def HF_MODEL_PATH : String := "/home/osslab/mumul_dev/bge-m3"

/-- The cache-backed embedding provider constructed (twice, identically) in
embed_file: the bge-m3 model wrapped with a LocalFileStore rooted at the given
directory. -/
def fresh_cached_embeddings (w : World) (root : String) : CachedEmbeddings :=
  CacheBackedEmbeddings.from_bytes_store w.hfEmbed ⟨root⟩

/-- Embedding one text through CacheBackedEmbeddings: reuse the byte-store
entry under the content-derived key when present, otherwise compute with the
underlying model and write the entry. -/
def cachedEmbedOne (w : World) (c : CachedEmbeddings) (text : String) (fs : FS) :
    List Int × FS × List Event :=
  let p := os_path_join c.store.root (w.hashKey text)
  match fsRead p fs with
  | some (.vecData v) => (v, fs, [])
  | _ =>
    let v := c.underlying text
    (v, fsWrite p (.vecData v) fs, [.byteStoreWrite p])

/-- One step of the fold embedding all documents through the cache. -/
def embedStep (w : World) (c : CachedEmbeddings)
    (acc : List (List Int) × FS × List Event) (d : Document) :
    List (List Int) × FS × List Event :=
  let r := cachedEmbedOne w c d.page_content acc.2.1
  (acc.1 ++ [r.1], r.2.1, acc.2.2 ++ r.2.2)

/-- FAISS.from_documents: embed every chunk through the cache-backed provider,
build the flat index over the vectors, generate a uuid docstore id per chunk,
and keep the provider as the live embedding function. -/
def FAISS.from_documents (w : World) (c : CachedEmbeddings)
    (docs : List Document) (fs : FS) : FAISS × FS × List Event :=
  let folded := docs.foldl (embedStep w c) ([], fs, [])
  let n := docs.length
  let ids := (List.range n).map w.uuid
  (⟨⟨folded.1⟩, ⟨ids.zip docs⟩, (List.range n).map (fun i => (i, w.uuid i)),
    .provider c⟩,
   folded.2.1, folded.2.2)

/-- Result of embed_file: the returned retriever (or the propagated
deserialization error), the filesystem after the call, and the trace of
observable effects. -/
structure EmbedResult where
  result : Except String VectorStoreRetriever
  fs : FS
  events : List Event

/-- Detail of the exception propagated when index.pkl is missing or has an
unexpected shape while index.faiss exists. -/
def unpicklingErrMsg : String := "UnpicklingError"

/-- The cache directory derived from the source file's basename
(src/redhat.py line 56). -/
def cache_dir_path (file_path : String) : String :=
  "./.cache/embeddings/redhat/" ++ basename file_path

/-- embed_file (src/redhat.py lines 55-92).  When index.faiss exists in the
derived cache directory, a fresh cache-backed provider is built and the
persisted index is loaded and wrapped as a retriever, with no document
loading and no splitting; otherwise the document is loaded, split with
split_text, embedded through the cache-backed provider, indexed, persisted
with save_faiss_index and wrapped as a retriever. -/
def embed_file (w : World) (file_path : String) (fs : FS) : EmbedResult :=
  let dir := cache_dir_path file_path
  if fsExists (os_path_join dir "index.faiss") fs then
    let cached_embeddings := fresh_cached_embeddings w dir
    match load_faiss_index dir cached_embeddings fs with
    | some vectorstore =>
      ⟨.ok vectorstore.as_retriever, fs, [.mkByteStore dir, .readIndexFile dir]⟩
    | none =>
      ⟨.error unpicklingErrMsg, fs, [.mkByteStore dir, .readIndexFile dir]⟩
  else
    let chunks := split_text (w.docText file_path).data
    let docs := chunks.map (fun c => { page_content := String.mk c, source := file_path })
    let cached_embeddings := fresh_cached_embeddings w dir
    let built := FAISS.from_documents w cached_embeddings docs fs
    let fs2 := save_faiss_index built.1 dir built.2.1
    ⟨.ok built.1.as_retriever, fs2,
     [.loadDocs file_path, .splitDocs, .mkByteStore dir] ++ built.2.2
       ++ [.writeIndexFiles dir]⟩

/-- Remote inference endpoint URL (src/redhat.py line 24). -/
def OLLAMA_URL : String := "http://20.39.201.16:11434/api/generate"

/-- Decidable equality for Except values with decidable components. -/
instance exceptDecEq {ε α : Type} [DecidableEq ε] [DecidableEq α] :
    DecidableEq (Except ε α) := fun x y =>
  match x, y with
  | .ok a, .ok b =>
    if h : a = b then .isTrue (by rw [h]) else .isFalse (by intro he; cases he; exact h rfl)
  | .error a, .error b =>
    if h : a = b then .isTrue (by rw [h]) else .isFalse (by intro he; cases he; exact h rfl)
  | .ok _, .error _ => .isFalse (by intro he; cases he)
  | .error _, .ok _ => .isFalse (by intro he; cases he)

/-- FastAPI HTTPException: status code and detail. -/
structure HTTPExceptionT where
  status_code : Nat
  detail : String
deriving DecidableEq

/-- The JSON payload posted to the inference service. -/
structure Payload where
  model : String
  prompt : String
  stream : Bool
deriving DecidableEq

/-- Outcome of the single HTTP attempt made by query_ollama: either a response
with a status code, a body, and the parse of body's json response field (an
error message models a json decoding or key failure), or a transport failure
(network error, timeout, ...) with the exception's message. -/
inductive HttpAttempt where
  | response (status : Nat) (body : String) (parsed : Except String String)
  | transportError (msg : String)
deriving DecidableEq

/-- What one call of query_ollama did: the single payload it sent and the
result it returned or the HTTPException it raised. -/
structure OllamaCall where
  sent : Payload
  result : Except HTTPExceptionT String
deriving DecidableEq

/-- query_ollama (src/redhat.py lines 94-112): posts the fixed payload once;
raise_for_status turns a non-2xx response into an HTTPException carrying the
remote status code and the response body verbatim; every other failure
(transport error, malformed response body) is caught by the generic handler
and becomes an HTTPException with status 500 and the exception's message. -/
def query_ollama (prompt : String) (att : HttpAttempt) : OllamaCall :=
  let payload : Payload := ⟨"EEVE-Korean-10.8B:latest", prompt, false⟩
  match att with
  | .transportError msg => ⟨payload, .error ⟨500, msg⟩⟩
  | .response status body parsed =>
    if 200 ≤ status ∧ status < 300 then
      match parsed with
      | .ok r => ⟨payload, .ok r⟩
      | .error m => ⟨payload, .error ⟨500, m⟩⟩
    else
      ⟨payload, .error ⟨status, body⟩⟩

/-- RAG_PROMPT_TEMPLATE (src/redhat.py lines 26-29), verbatim. -/
def RAG_PROMPT_TEMPLATE : String :=
  "당신은 질문에 친절하게 답변하는 REDHAT AI입니다. 주어진 문맥을 사용하여 질문에 답변하세요. 답을 모른다면 모른다고 답변하세요.\nQuestion: {question}\nContext: {context}\nAnswer:"

/-- The template text before the question placeholder. -/
def RAG_P1 : String :=
  "당신은 질문에 친절하게 답변하는 REDHAT AI입니다. 주어진 문맥을 사용하여 질문에 답변하세요. 답을 모른다면 모른다고 답변하세요.\nQuestion: "

/-- The template text between the two placeholders. -/
def RAG_P2 : String := "\nContext: "

/-- The template text after the context placeholder. -/
def RAG_P3 : String := "\nAnswer:"

/-- RAG_PROMPT_TEMPLATE.format(question=..., context=...): Python str.format
substitutes each field value verbatim for its placeholder. -/
def ragPrompt (question context : String) : String :=
  RAG_P1 ++ question ++ RAG_P2 ++ context ++ RAG_P3

/-- A Python exception as seen by the endpoint handler: either an
HTTPException, or any other exception reduced to its textual message. -/
inductive PyExn where
  | http (e : HTTPExceptionT)
  | other (msg : String)
deriving DecidableEq

/-- What one run of process_query did: the prompts sent to the inference
client (empty when the run failed before reaching it) and the produced answer
or raised exception. -/
structure QueryRun where
  sentPrompts : List String
  result : Except PyExn String
deriving DecidableEq

/-- str(e) of the AttributeError raised by retriever.invoke when the
module-level retriever is still None. -/
def noneInvokeMsg : String := "'NoneType' object has no attribute 'invoke'"

/-- str(e) of the ValueError raised inside similarity_search when an id does
not resolve through the id mapping and docstore. -/
def docstoreErrMsg : String := "Could not find document"

/-- The module-level retriever variable at import time
(src/redhat.py line 32). -/
def retriever_init : Option VectorStoreRetriever := none

/-- process_query (src/redhat.py lines 114-119): invoke the shared retriever
(an AttributeError when it is still None), join the retrieved chunk texts
with blank lines, format the fixed prompt template, and call query_ollama. -/
def process_query (retr : Option VectorStoreRetriever) (inputs : String)
    (att : HttpAttempt) : QueryRun :=
  match retr with
  | none => ⟨[], .error (.other noneInvokeMsg)⟩
  | some r =>
    match r.invoke inputs with
    | none => ⟨[], .error (.other docstoreErrMsg)⟩
    | some context_docs =>
      let context := String.intercalate "\n\n" (context_docs.map Document.page_content)
      let prompt := ragPrompt inputs context
      let call := query_ollama prompt att
      match call.result with
      | .ok answer => ⟨[prompt], .ok answer⟩
      | .error e => ⟨[prompt], .error (.http e)⟩

/-- The JSONResponse returned on success. -/
structure JSONResponseT where
  content : String
deriving DecidableEq

/-- query_doc, the POST /redhat/query handler (src/redhat.py lines 131-139):
returns the answer as a JSONResponse; re-raises an HTTPException unchanged;
wraps any other exception as HTTPException(500, str(e)). -/
def query_doc (retr : Option VectorStoreRetriever) (inputs : String)
    (att : HttpAttempt) : Except HTTPExceptionT JSONResponseT :=
  match (process_query retr inputs att).result with
  | .ok answer => .ok ⟨answer⟩
  | .error (.http e) => .error e
  | .error (.other m) => .error ⟨500, m⟩

/-
Concrete inputs used by witnesses and counterexamples.
-/

/-- A sample document. -/
def doc_w : Document := ⟨"alpha", "w.pdf"⟩

/-- A sample embedding function. -/
def embfn_w : String → List Int := fun _ => [1]

/-- A sample cache-backed provider. -/
def cemb_w : CachedEmbeddings := ⟨embfn_w, ⟨"root"⟩⟩

/-- A sample one-document vectorstore as built by FAISS.from_documents. -/
def vs_w : FAISS := ⟨⟨[[1]]⟩, ⟨[("id0", doc_w)]⟩, [(0, "id0")], .provider cemb_w⟩

/-- A sample world with trivial collaborators. -/
def w0 : World := ⟨fun _ => "", fun _ => [0], fun n => toString n, fun s => s⟩

/-- A sample source-file path. -/
def fp0 : String := "/x/doc.pdf"

/-- The cache directory derived from fp0's basename. -/
def dir0 : String := "./.cache/embeddings/redhat/doc.pdf"

/-- A filesystem holding a persisted index for fp0. -/
def fsHit : FS := save_faiss_index vs_w dir0 []

/-- A sample one-document vectorstore with a bare embedding callable. -/
def vs5 : FAISS := ⟨⟨[[0]]⟩, ⟨[("i0", ⟨"c", "s"⟩)]⟩, [(0, "i0")], .fn (fun _ => [0])⟩

/-- A successful inference attempt. -/
def att0 : HttpAttempt := .response 200 "" (.ok "ans")

/-- A 300-character run of the letter A. -/
def repA : List Char := List.replicate 300 'A'

/-- A 300-character run of the letter B. -/
def repB : List Char := List.replicate 300 'B'

/-- A 602-character text: two 300-character paragraphs separated by a
paragraph break. -/
def cexText : List Char := repA ++ "\n\n".data ++ repB

/-
Helper lemmas.
-/

theorem fsRead_write_same (p : String) (d : FileData) (fs : FS) :
    fsRead p (fsWrite p d fs) = some d := by
  simp [fsRead, fsWrite]

theorem fsRead_write_ne {p q : String} (h : q ≠ p) (d : FileData) (fs : FS) :
    fsRead p (fsWrite q d fs) = fsRead p fs := by
  simp [fsRead, fsWrite, h]

theorem str_append_cancel_left {s a b : String} (h : s ++ a = s ++ b) : a = b := by
  have hd := congrArg String.data h
  simp only [String.data_append] at hd
  exact String.ext (List.append_cancel_left hd)

theorem os_path_join_ne (dir : String) {a b : String}
    (ha : strStartsWith a "/" = false) (hb : strStartsWith b "/" = false)
    (hab : a ≠ b) : os_path_join dir a ≠ os_path_join dir b := by
  unfold os_path_join
  simp only [ha, hb, Bool.false_eq_true, if_false]
  split_ifs with h1 h2
  · exact hab
  · intro h; exact hab (str_append_cancel_left h)
  · intro h; exact hab (str_append_cancel_left h)

theorem index_paths_ne (dir : String) :
    os_path_join dir "index.pkl" ≠ os_path_join dir "index.faiss" :=
  os_path_join_ne dir (by decide) (by decide) (by decide)

theorem load_save (vs : FAISS) (dir : String) (c : CachedEmbeddings) (fs : FS) :
    load_faiss_index dir c (save_faiss_index vs dir fs) =
      some ⟨vs.index, vs.docstore, vs.index_to_docstore_id, .fn c.embed_query⟩ := by
  unfold load_faiss_index save_faiss_index
  rw [fsRead_write_ne (index_paths_ne dir), fsRead_write_same, fsRead_write_same]

/-
Claim theorems.
-/

/-- C1: loading the directory produced by save_faiss_index with the same
re-supplied embedding provider yields an index whose query results are
identical to the original index's results, for every query text (and every
requested k, which covers the retriever's fixed k of 4). -/
theorem C1_round_trip (vs : FAISS) (dir : String) (fs : FS) (c : CachedEmbeddings)
    (h : vs.embedding_function.call = c.embed_query) :
    ∃ vs', load_faiss_index dir c (save_faiss_index vs dir fs) = some vs' ∧
      ∀ q k, vs'.similarity_search q k = vs.similarity_search q k := by
  refine ⟨_, load_save vs dir c fs, ?_⟩
  intro q k
  simp only [FAISS.similarity_search, EmbFn.call, ← h]

/-- Witness for C1 at a concrete vectorstore, directory and provider. -/
theorem C1_round_trip_witness :
    ∃ vs', load_faiss_index "d" cemb_w (save_faiss_index vs_w "d" []) = some vs' ∧
      ∀ q k, vs'.similarity_search q k = vs_w.similarity_search q k :=
  C1_round_trip vs_w "d" [] cemb_w rfl

/-- C6: save_faiss_index writes exactly two files into the target directory,
the binary index file index.faiss and the side-tables file index.pkl holding
the pickled id-mapping, docstore and embedding-function reference in that
fixed order; every other path is untouched. -/
theorem C6_persisted_layout (vs : FAISS) (dir : String) (fs : FS) :
    fsRead (os_path_join dir "index.faiss") (save_faiss_index vs dir fs) =
      some (.faissData vs.index) ∧
    fsRead (os_path_join dir "index.pkl") (save_faiss_index vs dir fs) =
      some (.pklData [.idMap vs.index_to_docstore_id, .docstoreObj vs.docstore,
        .embObj vs.embeddings]) ∧
    ∀ p, p ≠ os_path_join dir "index.faiss" → p ≠ os_path_join dir "index.pkl" →
      fsRead p (save_faiss_index vs dir fs) = fsRead p fs := by
  refine ⟨?_, ?_, ?_⟩
  · unfold save_faiss_index
    rw [fsRead_write_ne (index_paths_ne dir), fsRead_write_same]
  · unfold save_faiss_index
    rw [fsRead_write_same]
  · intro p hp1 hp2
    unfold save_faiss_index
    rw [fsRead_write_ne (Ne.symm hp2), fsRead_write_ne (Ne.symm hp1)]

/-- Witness for C6: a path other than the two index files is untouched. -/
theorem C6_persisted_layout_witness :
    fsRead "other" (save_faiss_index vs_w "d" []) = none := by
  have h := (C6_persisted_layout vs_w "d" []).2.2 "other" (by decide) (by decide)
  simpa [fsRead] using h

/-- C7: the embedding provider is not deserialized from disk: load_faiss_index
reads only the first two pickled objects (id-mapping and docstore) of
index.pkl, its result does not depend on what follows them, and the returned
vectorstore's live embedding function is exactly the embed_query of the
provider passed in at load time. -/
theorem C7_provider_resupply :
    (∀ dir c fs vs', load_faiss_index dir c fs = some vs' →
      vs'.embedding_function = .fn c.embed_query) ∧
    (∀ (dir : String) (c : CachedEmbeddings) (fs : FS) (idx : FaissIndex)
        (m : List (Nat × String)) (d : InMemoryDocstore) (r : List PickleObj),
      load_faiss_index dir c
        (fsWrite (os_path_join dir "index.pkl")
          (.pklData (.idMap m :: .docstoreObj d :: r))
          (fsWrite (os_path_join dir "index.faiss") (.faissData idx) fs)) =
        some ⟨idx, d, m, .fn c.embed_query⟩) := by
  constructor
  · intro dir c fs vs' h
    unfold load_faiss_index at h
    split at h
    · split at h
      · injection h with h'
        rw [← h']
      · exact absurd h (by simp)
    · exact absurd h (by simp)
  · intro dir c fs idx m d r
    unfold load_faiss_index
    rw [fsRead_write_ne (index_paths_ne dir), fsRead_write_same, fsRead_write_same]

/-- Witness for C7 at a concrete load. -/
theorem C7_provider_resupply_witness :
    (⟨vs_w.index, vs_w.docstore, vs_w.index_to_docstore_id,
        .fn cemb_w.embed_query⟩ : FAISS).embedding_function =
      .fn cemb_w.embed_query :=
  C7_provider_resupply.1 "d" cemb_w (save_faiss_index vs_w "d" [])
    ⟨vs_w.index, vs_w.docstore, vs_w.index_to_docstore_id, .fn cemb_w.embed_query⟩ rfl

/-- C3: query_ollama sends exactly one fixed payload per call (no retries);
a non-2xx HTTP response is propagated with the remote status code and the
response body verbatim as the error detail; every other failure — transport
error (network error, timeout) or a malformed response body — is reported as
an internal error with fixed status 500 carrying the exception's message. -/
theorem C3_inference_error_mapping (prompt : String) (att : HttpAttempt) :
    (query_ollama prompt att).sent =
      ⟨"EEVE-Korean-10.8B:latest", prompt, false⟩ ∧
    (∀ status body parsed, att = .response status body parsed →
      ¬ (200 ≤ status ∧ status < 300) →
      (query_ollama prompt att).result = .error ⟨status, body⟩) ∧
    (∀ msg, att = .transportError msg →
      (query_ollama prompt att).result = .error ⟨500, msg⟩) ∧
    (∀ status body emsg, att = .response status body (.error emsg) →
      200 ≤ status → status < 300 →
      (query_ollama prompt att).result = .error ⟨500, emsg⟩) := by
  refine ⟨?_, ?_, ?_, ?_⟩
  · cases att with
    | response status body parsed =>
      simp only [query_ollama]
      split
      · cases parsed <;> rfl
      · rfl
    | transportError msg => rfl
  · intro status body parsed ha hns
    subst ha
    simp only [query_ollama]
    rw [if_neg hns]
  · intro msg ha
    subst ha
    rfl
  · intro status body emsg ha h1 h2
    subst ha
    simp only [query_ollama]
    rw [if_pos ⟨h1, h2⟩]

/-- Witness for C3: the stubbed 503 "overloaded" response, a transport
failure, and a malformed 200 response. -/
theorem C3_inference_error_mapping_witness :
    (query_ollama "p" (.response 503 "overloaded" (.ok "x"))).result =
      .error ⟨503, "overloaded"⟩ ∧
    (query_ollama "p" (.transportError "timed out")).result =
      .error ⟨500, "timed out"⟩ ∧
    (query_ollama "p" (.response 200 "body" (.error "bad json"))).result =
      .error ⟨500, "bad json"⟩ :=
  ⟨(C3_inference_error_mapping "p" _).2.1 503 "overloaded" (.ok "x") rfl (by decide),
   (C3_inference_error_mapping "p" _).2.2.1 "timed out" rfl,
   (C3_inference_error_mapping "p" _).2.2.2 200 "body" "bad json" rfl
     (by decide) (by decide)⟩

/-- C4: for every request, query_doc returns the answer as a JSONResponse on
success, re-raises an exception that already carries an HTTP status and detail
unchanged, and converts every other exception to an internal error with
status 500 whose detail is the exception's textual message; no exception is
silently swallowed. -/
theorem C4_endpoint_exception_mapping (retr : Option VectorStoreRetriever)
    (inputs : String) (att : HttpAttempt) :
    (∀ a, (process_query retr inputs att).result = .ok a →
      query_doc retr inputs att = .ok ⟨a⟩) ∧
    (∀ e, (process_query retr inputs att).result = .error (.http e) →
      query_doc retr inputs att = .error e) ∧
    (∀ m, (process_query retr inputs att).result = .error (.other m) →
      query_doc retr inputs att = .error ⟨500, m⟩) := by
  refine ⟨?_, ?_, ?_⟩ <;> intro x h <;> unfold query_doc <;> rw [h]

/-- Witness for C4 at a concrete request whose retrieval raises a plain
exception. -/
theorem C4_endpoint_exception_mapping_witness :
    query_doc none "q" att0 = .error ⟨500, noneInvokeMsg⟩ :=
  (C4_endpoint_exception_mapping none "q" att0).2.2 noneInvokeMsg rfl

/-- C5 counterexample: on a concrete request the prompt actually sent is
RAG_PROMPT_TEMPLATE instantiated, which differs from the claimed exact
template "Question: {inputs}\nContext: {joined chunk texts}\nAnswer:"
because of the fixed Korean system preamble preceding Question. -/
theorem C5_prompt_counterexample :
    (process_query (some vs5.as_retriever) "hi" att0).sentPrompts =
      [ragPrompt "hi" "c"] ∧
    ragPrompt "hi" "c" ≠ "Question: hi\nContext: c\nAnswer:" :=
  ⟨rfl, by decide⟩

/-- C5 amended: the prompt sent to the inference client is exactly
RAG_PROMPT_TEMPLATE — a fixed Korean preamble followed by
"Question: {inputs}\nContext: {joined chunk texts}\nAnswer:" — instantiated
with the request's inputs and the retrieved chunks' texts joined with blank
lines. -/
theorem C5_prompt_amended (r : VectorStoreRetriever) (inputs : String)
    (att : HttpAttempt) (cds : List Document)
    (h : r.invoke inputs = some cds) :
    (process_query (some r) inputs att).sentPrompts =
      [RAG_P1 ++ inputs ++ RAG_P2 ++
        String.intercalate "\n\n" (cds.map Document.page_content) ++ RAG_P3] ∧
    RAG_PROMPT_TEMPLATE =
      RAG_P1 ++ "{question}" ++ RAG_P2 ++ "{context}" ++ RAG_P3 := by
  constructor
  · simp only [process_query, h]
    cases hq : (query_ollama
        (ragPrompt inputs (String.intercalate "\n\n" (cds.map Document.page_content)))
        att).result <;> simp [hq, ragPrompt]
  · decide

/-- Witness for C5 amended at a concrete retriever and request. -/
theorem C5_prompt_amended_witness :
    (process_query (some vs5.as_retriever) "hi" att0).sentPrompts =
      [RAG_P1 ++ "hi" ++ RAG_P2 ++
        String.intercalate "\n\n" ([Document.mk "c" "s"].map Document.page_content) ++
        RAG_P3] ∧
    RAG_PROMPT_TEMPLATE =
      RAG_P1 ++ "{question}" ++ RAG_P2 ++ "{context}" ++ RAG_P3 :=
  C5_prompt_amended vs5.as_retriever "hi" att0 [⟨"c", "s"⟩] (by decide)

/-- C10: the module-level retriever is initialized to None, so a query
processed before the startup hook completes raises the attribute error on
None inside process_query and the endpoint converts it to an internal error
with status 500 (rather than returning an answer). -/
theorem C10_prestartup_query :
    retriever_init = none ∧
    ∀ inputs att, query_doc retriever_init inputs att =
      .error ⟨500, noneInvokeMsg⟩ := by
  exact ⟨rfl, fun _ _ => rfl⟩

theorem cachedEmbedOne_events (w : World) (c : CachedEmbeddings) (text : String)
    (fs : FS) :
    ∀ e ∈ (cachedEmbedOne w c text fs).2.2,
      ∃ k, e = .byteStoreWrite (os_path_join c.store.root k) := by
  intro e he
  simp only [cachedEmbedOne] at he
  rcases hf : fsRead (os_path_join c.store.root (w.hashKey text)) fs with _ | fd
  · rw [hf] at he
    simp at he
    exact ⟨w.hashKey text, he⟩
  · rw [hf] at he
    cases fd with
    | faissData idx => simp at he; exact ⟨w.hashKey text, he⟩
    | pklData objs => simp at he; exact ⟨w.hashKey text, he⟩
    | vecData v => simp at he

theorem foldl_embed_events (w : World) (c : CachedEmbeddings) :
    ∀ (docs : List Document) (acc : List (List Int) × FS × List Event),
      (∀ e ∈ acc.2.2, ∃ k, e = .byteStoreWrite (os_path_join c.store.root k)) →
      ∀ e ∈ (docs.foldl (embedStep w c) acc).2.2,
        ∃ k, e = .byteStoreWrite (os_path_join c.store.root k) := by
  intro docs
  induction docs with
  | nil => intro acc hacc e he; exact hacc e he
  | cons d ds ih =>
    intro acc hacc e he
    rw [List.foldl_cons] at he
    refine ih (embedStep w c acc d) ?_ e he
    intro e' he'
    simp only [embedStep] at he'
    rcases List.mem_append.1 he' with h | h
    · exact hacc e' h
    · exact cachedEmbedOne_events w c d.page_content acc.2.1 e' h

theorem from_documents_events (w : World) (c : CachedEmbeddings)
    (docs : List Document) (fs : FS) :
    ∀ e ∈ (FAISS.from_documents w c docs fs).2.2,
      ∃ k, e = .byteStoreWrite (os_path_join c.store.root k) := by
  intro e he
  simp only [FAISS.from_documents] at he
  exact foldl_embed_events w c docs ([], fs, []) (by intro e' h; simp at h) e he

/-- C2: embed_file takes the load path if and only if index.faiss exists in
the cache directory derived from the source file's basename; on that path it
performs no document loading and no re-chunking, leaves the filesystem
untouched, and returns a retriever built solely from the persisted index
loaded with a freshly constructed cache-backed embedding provider; on the
other path it ingests the document and never reads a persisted index. -/
theorem C2_cache_decision (w : World) (fp : String) (fs : FS) :
    (fsExists (os_path_join (cache_dir_path fp) "index.faiss") fs = true →
      (embed_file w fp fs).events =
        [.mkByteStore (cache_dir_path fp), .readIndexFile (cache_dir_path fp)] ∧
      hasIngestEvent (embed_file w fp fs).events = false ∧
      (embed_file w fp fs).fs = fs ∧
      ∀ vs0, load_faiss_index (cache_dir_path fp)
          (fresh_cached_embeddings w (cache_dir_path fp)) fs = some vs0 →
        (embed_file w fp fs).result = .ok vs0.as_retriever) ∧
    (fsExists (os_path_join (cache_dir_path fp) "index.faiss") fs = false →
      hasIngestEvent (embed_file w fp fs).events = true ∧
      Event.readIndexFile (cache_dir_path fp) ∉ (embed_file w fp fs).events) := by
  constructor
  · intro hex
    rcases hl : load_faiss_index (cache_dir_path fp)
        (fresh_cached_embeddings w (cache_dir_path fp)) fs with _ | vs
    · have he : embed_file w fp fs =
          ⟨.error unpicklingErrMsg, fs,
            [.mkByteStore (cache_dir_path fp), .readIndexFile (cache_dir_path fp)]⟩ := by
        simp [embed_file, hex, hl]
      rw [he]
      refine ⟨rfl, rfl, rfl, ?_⟩
      intro vs0 h0
      cases h0
    · have he : embed_file w fp fs =
          ⟨.ok vs.as_retriever, fs,
            [.mkByteStore (cache_dir_path fp), .readIndexFile (cache_dir_path fp)]⟩ := by
        simp [embed_file, hex, hl]
      rw [he]
      refine ⟨rfl, rfl, rfl, ?_⟩
      intro vs0 h0
      injection h0 with h0
      rw [h0]
  · intro hex
    constructor
    · simp [embed_file, hex, hasIngestEvent, isIngestEvent]
    · intro hmem
      simp only [embed_file, hex, Bool.false_eq_true, if_false] at hmem
      rcases List.mem_append.1 hmem with h1 | h1
      · rcases List.mem_append.1 h1 with h2 | h2
        · simp at h2
        · rcases from_documents_events _ _ _ _ _ h2 with ⟨k, hk⟩
          cases hk
      · simp at h1

/-- Witness for C2: a run on a filesystem holding the persisted index, and a
run on an empty filesystem. -/
theorem C2_cache_decision_witness :
    (embed_file w0 fp0 fsHit).events =
      [.mkByteStore (cache_dir_path fp0), .readIndexFile (cache_dir_path fp0)] ∧
    hasIngestEvent (embed_file w0 fp0 ([] : FS)).events = true :=
  ⟨((C2_cache_decision w0 fp0 fsHit).1 (by decide)).1,
   ((C2_cache_decision w0 fp0 []).2 (by decide)).1⟩

/-- C8 counterexample: on a concrete run of embed_file the only byte store
constructed is rooted at the per-file embeddings cache directory, not at
.cache/files/redhat, and no byte store rooted at .cache/files/redhat is ever
constructed. -/
theorem C8_bytestore_counterexample :
    (embed_file w0 fp0 fsHit).events = [.mkByteStore dir0, .readIndexFile dir0] ∧
    dir0 ≠ ".cache/files/redhat" ∧
    Event.mkByteStore ".cache/files/redhat" ∉ (embed_file w0 fp0 fsHit).events :=
  ⟨by decide, by decide, by decide⟩

/-- C8 amended: the cached raw embedding byte-store entries are stored under
the per-source-file cache directory cacheRoot/embeddings/redhat/basename —
the directory handed to LocalFileStore — and every byte-store write targets a
key path under that directory. -/
theorem C8_bytestore_amended (w : World) (fp : String) (fs : FS) :
    (∀ root, Event.mkByteStore root ∈ (embed_file w fp fs).events →
      root = cache_dir_path fp) ∧
    (∀ p, Event.byteStoreWrite p ∈ (embed_file w fp fs).events →
      ∃ k, p = os_path_join (cache_dir_path fp) k) := by
  constructor
  · intro root hmem
    cases hex : fsExists (os_path_join (cache_dir_path fp) "index.faiss") fs with
    | true =>
      rcases hl : load_faiss_index (cache_dir_path fp)
          (fresh_cached_embeddings w (cache_dir_path fp)) fs with _ | vs <;>
        simp [embed_file, hex, hl] at hmem <;> exact hmem
    | false =>
      simp only [embed_file, hex, Bool.false_eq_true, if_false] at hmem
      rcases List.mem_append.1 hmem with h1 | h1
      · rcases List.mem_append.1 h1 with h2 | h2
        · simp at h2
          exact h2
        · rcases from_documents_events _ _ _ _ _ h2 with ⟨k, hk⟩
          cases hk
      · simp at h1
  · intro p hmem
    cases hex : fsExists (os_path_join (cache_dir_path fp) "index.faiss") fs with
    | true =>
      rcases hl : load_faiss_index (cache_dir_path fp)
          (fresh_cached_embeddings w (cache_dir_path fp)) fs with _ | vs <;>
        simp [embed_file, hex, hl] at hmem
    | false =>
      simp only [embed_file, hex, Bool.false_eq_true, if_false] at hmem
      rcases List.mem_append.1 hmem with h1 | h1
      · rcases List.mem_append.1 h1 with h2 | h2
        · simp at h2
        · rcases from_documents_events _ _ _ _ _ h2 with ⟨k, hk⟩
          injection hk with hk
          exact ⟨k, hk⟩
      · simp at h1

/-- Witness for C8 amended: the byte-store root of a concrete run equals the
derived per-file cache directory. -/
theorem C8_bytestore_amended_witness :
    dir0 = cache_dir_path fp0 :=
  (C8_bytestore_amended w0 fp0 fsHit).1 dir0 (by decide)

theorem length_pyStrip_le (l : List Char) : (pyStrip l).length ≤ l.length := by
  unfold pyStrip
  calc (((l.dropWhile pySpace).reverse.dropWhile pySpace).reverse).length
      = ((l.dropWhile pySpace).reverse.dropWhile pySpace).length :=
        List.length_reverse _
    _ ≤ (l.dropWhile pySpace).reverse.length :=
        (List.dropWhile_suffix pySpace).sublist.length_le
    _ = (l.dropWhile pySpace).length := List.length_reverse _
    _ ≤ l.length := (List.dropWhile_suffix pySpace).sublist.length_le

theorem joinClean_some_le {docs : List (List Char)} {c : List Char}
    (h : joinClean docs = some c) : c.length ≤ sumLens docs := by
  simp only [joinClean] at h
  split at h
  · cases h
  · injection h with h
    rw [← h]
    calc (pyStrip docs.flatten).length ≤ docs.flatten.length :=
          length_pyStrip_le _
      _ = sumLens docs := List.length_flatten docs

theorem popLoop_spec (csz co lenD : Nat) :
    ∀ (cur : List (List Char)) (total : Nat), total = sumLens cur →
      (popLoop csz co lenD cur total).2 = sumLens (popLoop csz co lenD cur total).1 ∧
      (popLoop csz co lenD cur total).2 ≤ co ∧
      ((popLoop csz co lenD cur total).2 + lenD ≤ csz ∨
        (popLoop csz co lenD cur total).2 = 0) := by
  intro cur
  induction cur with
  | nil =>
    intro total h
    have h0 : total = 0 := by simpa [sumLens] using h
    simp only [popLoop]
    exact ⟨by simpa [sumLens] using h0, by omega, Or.inr h0⟩
  | cons c cs ih =>
    intro total h
    have hsum : total = c.length + sumLens cs := by simpa [sumLens] using h
    simp only [popLoop]
    by_cases hcond : total > co ∨ (total + lenD > csz ∧ total > 0)
    · rw [if_pos hcond]
      exact ih (total - c.length) (by omega)
    · rw [if_neg hcond]
      exact ⟨h, by omega, by omega⟩

theorem mergeLoop_bound (csz co : Nat) :
    ∀ (splits current : List (List Char)) (total : Nat) (docs : List (List Char)),
      (∀ s ∈ splits, s.length < csz) →
      total = sumLens current →
      total ≤ csz →
      (∀ c ∈ docs, c.length ≤ csz) →
      ∀ c ∈ mergeLoop csz co splits current total docs, c.length ≤ csz := by
  intro splits
  induction splits with
  | nil =>
    intro current total docs _ hinv htot hdocs c hc
    simp only [mergeLoop] at hc
    rcases List.mem_append.1 hc with h | h
    · exact hdocs c h
    · have h2 : joinClean current = some c := by
        rcases hj : joinClean current with _ | x
        · rw [hj] at h; simp at h
        · rw [hj] at h; simp at h; rw [h]
      have := joinClean_some_le h2
      omega
  | cons d rest ih =>
    intro current total docs hsplits hinv htot hdocs c hc
    have hd : d.length < csz := hsplits d (by simp)
    have hrest : ∀ s ∈ rest, s.length < csz := fun s hs => hsplits s (by simp [hs])
    simp only [mergeLoop] at hc
    by_cases hov : total + d.length > csz
    · rw [if_pos hov] at hc
      cases hemp : current.isEmpty with
      | true =>
        have hcur : current = [] := by simpa using hemp
        rw [hemp] at hc
        simp only [if_true] at hc
        have h0 : total = 0 := by simp [hcur, sumLens] at hinv; omega
        omega
      | false =>
        rw [hemp] at hc
        simp only [Bool.false_eq_true, if_false] at hc
        obtain ⟨hpe, hpco, hpdisj⟩ := popLoop_spec csz co d.length current total hinv
        refine ih _ _ _ hrest ?_ ?_ ?_ c hc
        · simp [sumLens, hpe]
        · omega
        · intro c' hc'
          rcases List.mem_append.1 hc' with h | h
          · exact hdocs c' h
          · have h2 : joinClean current = some c' := by
              rcases hj : joinClean current with _ | x
              · rw [hj] at h; simp at h
              · rw [hj] at h; simp at h; rw [h]
            have := joinClean_some_le h2
            omega
    · rw [if_neg hov] at hc
      refine ih _ _ _ hrest ?_ ?_ hdocs c hc
      · simp [sumLens, hinv]
      · omega

theorem processSplits_bound (recur : List Char → List (List Char)) (csz co : Nat)
    (newSeps : List (List Char)) :
    ∀ (splits good final : List (List Char)),
      (∀ s ∈ good, s.length < csz) →
      (∀ c ∈ final, c.length ≤ csz) →
      (newSeps.isEmpty = true → ∀ s ∈ splits, s.length < csz) →
      (newSeps.isEmpty = false → ∀ s c, c ∈ recur s → c.length ≤ csz) →
      ∀ c ∈ processSplits recur csz co newSeps splits good final, c.length ≤ csz := by
  intro splits
  induction splits with
  | nil =>
    intro good final hgood hfinal _ _ c hc
    simp only [processSplits] at hc
    rcases List.mem_append.1 hc with h | h
    · exact hfinal c h
    · cases hemp : good.isEmpty with
      | true => rw [hemp] at h; simp at h
      | false =>
        rw [hemp] at h
        simp only [Bool.false_eq_true, if_false] at h
        exact mergeLoop_bound csz co good [] 0 [] hgood (by simp [sumLens])
          (by omega) (by simp) c h
  | cons s rest ih =>
    intro good final hgood hfinal hner hrec c hc
    simp only [processSplits] at hc
    by_cases hlen : s.length < csz
    · rw [if_pos hlen] at hc
      refine ih (good ++ [s]) final ?_ hfinal ?_ hrec c hc
      · intro x hx
        rcases List.mem_append.1 hx with h | h
        · exact hgood x h
        · simp at h; rw [h]; exact hlen
      · intro he x hx
        exact hner he x (by simp [hx])
    · rw [if_neg hlen] at hc
      have hmerge : ∀ c' ∈ (if good.isEmpty then [] else mergeSplits csz co good),
          c'.length ≤ csz := by
        intro c' hc'
        cases hemp : good.isEmpty with
        | true => rw [hemp] at hc'; simp at hc'
        | false =>
          rw [hemp] at hc'
          simp only [Bool.false_eq_true, if_false] at hc'
          exact mergeLoop_bound csz co good [] 0 [] hgood (by simp [sumLens])
            (by omega) (by simp) c' hc'
      refine ih [] _ (by simp) ?_ ?_ hrec c hc
      · intro x hx
        rcases List.mem_append.1 hx with h | h
        · rcases List.mem_append.1 h with h' | h'
          · exact hfinal x h'
          · exact hmerge x h'
        · cases hne : newSeps.isEmpty with
          | true =>
            exact absurd (hner hne s (by simp)) hlen
          | false =>
            rw [hne] at h
            simp only [Bool.false_eq_true, if_false] at h
            exact hrec hne s x h
      · intro he x hx
        exact hner he x (by simp [hx])

theorem chooseSep_spec (text : List Char) :
    ∀ seps : List (List Char), [] ∈ seps →
      (chooseSep seps text).1 = [] ∧ (chooseSep seps text).2 = [] ∨
      [] ∈ (chooseSep seps text).2 ∧
        (chooseSep seps text).2.length < seps.length := by
  intro seps
  induction seps with
  | nil => intro h; cases h
  | cons s rest ih =>
    intro hmem
    simp only [chooseSep]
    by_cases hse : s.isEmpty = true
    · rw [if_pos hse]
      left
      exact ⟨rfl, rfl⟩
    · rw [if_neg hse]
      have hsne : s ≠ [] := fun h => hse (by rw [h]; rfl)
      have hrest : [] ∈ rest := by
        rcases List.mem_cons.1 hmem with h | h
        · exact absurd h.symm hsne
        · exact h
      by_cases hcon : containsSub s text = true
      · rw [if_pos hcon]
        right
        exact ⟨hrest, by simp⟩
      · rw [if_neg hcon]
        cases rest with
        | nil => cases hrest
        | cons r rs =>
          rcases ih hrest with ⟨h1, h2⟩ | ⟨h1, h2⟩
          · left; exact ⟨h1, h2⟩
          · right
            refine ⟨h1, ?_⟩
            calc (chooseSep (r :: rs) text).2.length < (r :: rs).length := h2
              _ < (s :: r :: rs).length := by simp

theorem splitKeepSep_nil_sep (text : List Char) :
    ∀ s ∈ splitKeepSep [] text, s.length = 1 := by
  intro s hs
  simp only [splitKeepSep, List.isEmpty_nil, if_true] at hs
  rcases List.mem_filter.1 hs with ⟨hmem, _⟩
  rcases List.mem_map.1 hmem with ⟨c, _, hc⟩
  rw [← hc]
  rfl

theorem splitTextGo_bound (csz co : Nat) (hcs : 2 ≤ csz) :
    ∀ (n : Nat) (seps : List (List Char)) (text : List Char),
      [] ∈ seps → seps.length ≤ n →
      ∀ c ∈ splitTextGo csz co n seps text, c.length ≤ csz := by
  intro n
  induction n with
  | zero =>
    intro seps text hmem hlen
    have : seps = [] := List.length_eq_zero.1 (Nat.le_zero.1 hlen)
    rw [this] at hmem
    cases hmem
  | succ n ih =>
    intro seps text hmem hlen c hc
    simp only [splitTextGo] at hc
    rcases chooseSep_spec text seps hmem with ⟨h1, h2⟩ | ⟨h1, h2⟩
    · rw [h1, h2] at hc
      refine processSplits_bound _ csz co [] _ [] [] (by simp) (by simp) ?_ ?_ c hc
      · intro _ s hs
        have := splitKeepSep_nil_sep text s hs
        omega
      · intro habs
        simp at habs
    · refine processSplits_bound _ csz co _ _ [] [] (by simp) (by simp) ?_ ?_ c hc
      · intro he
        rw [List.isEmpty_iff] at he
        rw [he] at h1
        cases h1
      · intro _ s c' hc'
        exact ih (chooseSep seps text).2 s h1 (by omega) c' hc'

/-- C9 counterexample: on a concrete 602-character document (two 300-character
paragraphs separated by a paragraph break) the configured splitter produces
two adjacent chunks that share no text at all — in particular the last 50
characters of the first chunk are not the first 50 characters of the second —
refuting the claim that every produced chunk has a 50-character overlap with
its neighbors. -/
theorem C9_chunking_counterexample :
    split_text cexText = [repA, repB] ∧
    repA.drop (repA.length - 50) ≠ repB.take 50 ∧
    ∀ s : List Char, s ≠ [] → s.IsSuffix repA → s.IsPrefix repB → False := by
  refine ⟨by decide, by decide, ?_⟩
  intro s hne hsuf hpre
  rcases List.exists_mem_of_ne_nil s hne with ⟨c, hc⟩
  have hA : c = 'A' := by
    have := hsuf.subset hc
    simp only [repA] at this
    exact List.eq_of_mem_replicate this
  have hB : c = 'B' := by
    have := hpre.subset hc
    simp only [repB] at this
    exact List.eq_of_mem_replicate this
  rw [hA] at hB
  cases hB

/-- C9 amended: on the cache-miss path the document is split by the recursive
splitter configured with the separator list [paragraph break, line break, the
literal eight-character string "(?<=\. )" (regex separators are not enabled),
space, empty string], target chunk size 500 and overlap parameter 50; every
produced chunk is at most 500 characters, while the 50-character overlap is
only an upper bound enforced while carrying a window between chunks — adjacent
chunks may overlap by fewer than 50 characters, including not at all. -/
theorem C9_chunking_amended :
    redhat_text_splitter.chunk_size = 500 ∧
    redhat_text_splitter.chunk_overlap = 50 ∧
    redhat_text_splitter.separators =
      ["\n\n".data, "\n".data, "(?<=\\. )".data, " ".data, "".data] ∧
    redhat_text_splitter.is_separator_regex = false ∧
    ∀ text c, c ∈ split_text text → c.length ≤ 500 := by
  refine ⟨rfl, rfl, rfl, rfl, ?_⟩
  intro text c hc
  exact splitTextGo_bound 500 50 (by omega) redhatSeparators.length
    redhatSeparators text (by decide) (by omega) c hc

/-- Witness for C9 amended at a concrete two-character document. -/
theorem C9_chunking_amended_witness : ("ab".data).length ≤ 500 :=
  C9_chunking_amended.2.2.2.2 "ab".data "ab".data (by decide)
